import Mathlib

/-!
Verification of the schema-collector component of the mail2do repository
(`mail2do/notion_get_schema.py`), shallowly embedded in Lean 4.

The embedding models the remote Notion workspace as a finite association
list from normalized database identifier to database descriptor; network
fetches become lookups in that environment, and the paginated query
endpoint becomes an explicit script (list) of page responses.  Fallible
Python code (code paths that raise) is modelled with `Option`: a result of
`none` marks a run that raises.  Python dictionaries are modelled as
association lists in insertion order.
-/

namespace Mail2do

/-- A fragment of Notion rich text, as it appears in a database's `title`
array.  `plain_text` is `none` when the JSON object lacks the key
(the source reads it with `t.get("plain_text", ...)`). -/
structure TextFragment where
  plain_text : Option String
deriving DecidableEq

/-- The type-specific payload of a Notion property definition.  In the raw
JSON the payload lives under a key equal to the property's `type` string,
so the constructor determines both the `type` tag and the payload. -/
inductive PropPayload where
  | relation (database_id : String)
  | rollup (relation_property_id : Option String) (rollup_property_id : Option String)
  | select (options : List String)
  | multi_select (options : List String)
  | status (options : List String)
  | other (typeName : String)
deriving DecidableEq

/-- The `type` string of a property, as the code reads it from `p["type"]`. -/
def PropPayload.typeName : PropPayload → String
  | .relation _ => "relation"
  | .rollup _ _ => "rollup"
  | .select _ => "select"
  | .multi_select _ => "multi_select"
  | .status _ => "status"
  | .other t => t

/-- One property definition of a database: its stable `id` and its payload. -/
structure NProperty where
  id : String
  payload : PropPayload
deriving DecidableEq

/-- A fetched database descriptor (`db_json` in the source).  `title` is
`none` when the JSON lacks the `title` key (the source reads it with
`db_json.get("title", ...)`); `properties` is the property dictionary in
insertion order, names unique as in any JSON object. -/
structure NDatabase where
  id : String
  title : Option (List TextFragment)
  properties : List (String × NProperty)
deriving DecidableEq

/-- The in-memory pool of fetched databases, keyed by normalized id. -/
abbrev Pool := List (String × NDatabase)

/-- The remote universe of databases, keyed by normalized id.  A fetch of a
raw identifier resolves through normalization; an id absent from the
environment is one whose fetch returns a non-success response. -/
abbrev Env := List (String × NDatabase)

/-- Source `canonical_id`: `raw.replace("-", "")`.  Replacing every
occurrence of the single character `-` by the empty string removes exactly
the `-` characters, modelled as a character filter. -/
def canonical_id (raw : String) : String :=
  String.mk (raw.data.filter (fun c => c != '-'))

/-- Lookup in a Python dict built by a comprehension: on duplicate keys the
last insertion wins, so lookup returns the value of the last matching
entry. -/
def pyDictGet {β : Type} (m : List (String × β)) (k : String) : Option β :=
  ((m.filter (fun e => e.1 == k)).getLast?).map Prod.snd

/-- Source `property_id_map`: the reverse index from normalized
property id to property name
(`{prop.get("id").replace("-", ""): name for name, prop in ...}`). -/
def property_id_map (db : NDatabase) : List (String × String) :=
  db.properties.map (fun np => (canonical_id np.2.id, np.1))

/-- Normalizing an identifier is idempotent. -/
theorem canonical_id_idem (raw : String) :
    canonical_id (canonical_id raw) = canonical_id raw := by
  simp [canonical_id, List.filter_filter]

/-- Lookup distributes over append: search the left list first. -/
theorem lookup_append {β : Type} (k : String) (l₁ l₂ : List (String × β)) :
    List.lookup k (l₁ ++ l₂) =
      ((List.lookup k l₁).orElse (fun _ => List.lookup k l₂)) := by
  induction l₁ with
  | nil => simp [List.lookup]
  | cons e t ih =>
    cases e with
    | mk a b =>
      by_cases h : k == a
      · simp [List.lookup, h]
      · have hf : (k == a) = false := by simpa using h
        simp only [List.cons_append, List.lookup, hf]
        exact ih

/-- A successful lookup exhibits a member of the list with that key. -/
theorem mem_of_lookup_eq_some {β : Type} {k : String} {l : List (String × β)} {v : β}
    (h : List.lookup k l = some v) : (k, v) ∈ l := by
  induction l with
  | nil => simp [List.lookup] at h
  | cons e t ih =>
    cases e with
    | mk a b =>
      by_cases hk : k == a
      · simp [List.lookup, hk] at h
        subst h
        have : k = a := by simpa using hk
        subst this
        exact List.mem_cons_self _ _
      · have hf : (k == a) = false := by simpa using hk
        simp only [List.lookup, hf] at h
        exact List.mem_cons_of_mem _ (ih h)

/-- A failed lookup means the key is not among the list's keys. -/
theorem not_mem_keys_of_lookup_eq_none {β : Type} {k : String} {l : List (String × β)}
    (h : List.lookup k l = none) : k ∉ l.map Prod.fst := by
  induction l with
  | nil => simp
  | cons e t ih =>
    cases e with
    | mk a b =>
      by_cases hk : k == a
      · simp [List.lookup, hk] at h
      · have hf : (k == a) = false := by simpa using hk
        simp only [List.lookup, hf] at h
        simp only [List.map_cons, List.mem_cons]
        rintro (rfl | hm)
        · simp at hk
        · exact ih h hm

/-- A key among the list's keys admits a successful lookup. -/
theorem lookup_isSome_of_mem_keys {β : Type} {k : String} {l : List (String × β)}
    (h : k ∈ l.map Prod.fst) : (List.lookup k l).isSome = true := by
  induction l with
  | nil => simp at h
  | cons e t ih =>
    cases e with
    | mk a b =>
      by_cases hk : k == a
      · simp [List.lookup, hk]
      · have hf : (k == a) = false := by simpa using hk
        simp only [List.lookup, hf]
        simp only [List.map_cons, List.mem_cons] at h
        rcases h with rfl | hm
        · simp at hk
        · exact ih hm

/-- A successful lookup means the key is among the list's keys. -/
theorem mem_keys_of_lookup_eq_some {β : Type} {k : String} {l : List (String × β)} {v : β}
    (h : List.lookup k l = some v) : k ∈ l.map Prod.fst := by
  have := mem_of_lookup_eq_some h
  exact List.mem_map.mpr ⟨(k, v), this, rfl⟩

/-- Filtering with a stronger predicate keeps at most as many elements. -/
theorem length_filter_le_of_imp {α : Type} {p q : α → Bool} {l : List α}
    (hsub : ∀ x ∈ l, p x = true → q x = true) :
    (l.filter p).length ≤ (l.filter q).length := by
  induction l with
  | nil => simp
  | cons x t ih =>
    have hsub' : ∀ y ∈ t, p y = true → q y = true := fun y hy => hsub y (List.mem_cons_of_mem _ hy)
    by_cases hp : p x = true
    · have hq : q x = true := hsub x (List.mem_cons_self _ _) hp
      simp only [List.filter_cons, hp, hq, if_true]
      simpa using ih hsub'
    · have hp' : p x = false := by simpa using hp
      by_cases hq : q x = true
      · simp only [List.filter_cons, hp', hq]
        simp only [Bool.false_eq_true, if_false, if_true, List.length_cons]
        exact Nat.le_succ_of_le (ih hsub')
      · have hq' : q x = false := by simpa using hq
        simp only [List.filter_cons, hp', hq', Bool.false_eq_true, if_false]
        exact ih hsub'

/-- Filtering with a strictly stronger predicate (witnessed by an element
satisfying the weak predicate but not the strong one) keeps strictly fewer
elements. -/
theorem length_filter_lt_of_witness {α : Type} {p q : α → Bool} {l : List α}
    (hsub : ∀ x ∈ l, p x = true → q x = true) {a : α} (ha : a ∈ l)
    (hq : q a = true) (hp : p a = false) :
    (l.filter p).length < (l.filter q).length := by
  induction l with
  | nil => simp at ha
  | cons x t ih =>
    have hsub' : ∀ y ∈ t, p y = true → q y = true := fun y hy => hsub y (List.mem_cons_of_mem _ hy)
    rcases List.mem_cons.mp ha with rfl | hat
    · simp only [List.filter_cons, hp, hq, Bool.false_eq_true, if_false, if_true,
        List.length_cons]
      exact Nat.lt_succ_of_le (length_filter_le_of_imp hsub')
    · by_cases hpx : p x = true
      · have hqx : q x = true := hsub x (List.mem_cons_self _ _) hpx
        simp only [List.filter_cons, hpx, hqx, if_true, List.length_cons]
        exact Nat.succ_lt_succ (ih hsub' hat)
      · have hpx' : p x = false := by simpa using hpx
        by_cases hqx : q x = true
        · simp only [List.filter_cons, hpx', hqx, Bool.false_eq_true, if_false, if_true,
            List.length_cons]
          exact Nat.lt_succ_of_lt (ih hsub' hat)
        · have hqx' : q x = false := by simpa using hqx
          simp only [List.filter_cons, hpx', hqx', Bool.false_eq_true, if_false]
          exact ih hsub' hat

/-- A normalized property entry produced by `extract_schema`.  Each field of
type `Option _` is `none` when the corresponding key is absent from the
Python dict; `relation_property_id`/`rollup_property_id` store the raw
`rl.get(...)` result, which may itself be a JSON null (`none`). -/
structure SchemaEntry where
  type : String
  related_database_id : Option String
  related_database_title : Option String
  relation_property_id : Option (Option String)
  relation_property_name : Option String
  rollup_property_id : Option (Option String)
  rollup_property_name : Option String
deriving DecidableEq

/-- The source expression `x.get("title", [{}])[0].get("plain_text", "?")`:
an absent `title` key falls back to the default fragment (yielding `"?"`),
a present-but-empty title list raises `IndexError` (modelled as `none`),
and otherwise the first fragment's `plain_text` is read with default
`"?"`. -/
def firstFragmentTitle (db : NDatabase) : Option String :=
  match db.title with
  | none => some "?"
  | some [] => none
  | some (t :: _) => some (t.plain_text.getD "?")

/-- The `relation_property_name` computation of the rollup branch:
`pid_to_name.get(rl.get("relation_property_id", "").replace("-", ""), "?")`. -/
def relationPropName (db : NDatabase) (relPropId : Option String) : String :=
  (pyDictGet (property_id_map db) (canonical_id (relPropId.getD ""))).getD "?"

/-- The `rollup_property_name` computation against a resolved target:
`target_pid_map.get(rl.get("rollup_property_id", "").replace("-", ""), "?")`. -/
def rollupPropName (target_db : NDatabase) (rollPropId : Option String) : String :=
  (pyDictGet (property_id_map target_db) (canonical_id (rollPropId.getD ""))).getD "?"

/-- The body of the per-property loop of `extract_schema`: build the
normalized entry for one property, `none` when the Python code would
raise. -/
def schemaEntry (db : NDatabase) (db_pool : Pool) (p : NProperty) : Option SchemaEntry :=
  match p.payload with
  | .relation rel_db_id =>
    match List.lookup (canonical_id rel_db_id) db_pool with
    | some rel_db =>
      (firstFragmentTitle rel_db).map
        (fun t => ⟨"relation", some rel_db_id, some t, none, none, none, none⟩)
    | none =>
      some ⟨"relation", some rel_db_id, some "?", none, none, none, none⟩
  | .rollup relPropId rollPropId =>
    match List.lookup (relationPropName db relPropId) db.properties with
    | none =>
      some ⟨"rollup", none, none, some relPropId, some (relationPropName db relPropId),
        some rollPropId, none⟩
    | some parent =>
      match parent.payload with
      | .relation target_db_id =>
        match List.lookup (canonical_id target_db_id) db_pool with
        | none =>
          some ⟨"rollup", none, none, some relPropId, some (relationPropName db relPropId),
            some rollPropId, none⟩
        | some target_db =>
          (firstFragmentTitle target_db).map
            (fun t => ⟨"rollup", some target_db_id, some t, some relPropId,
              some (relationPropName db relPropId), some rollPropId,
              some (rollupPropName target_db rollPropId)⟩)
      | _ => none
  | pl => some ⟨pl.typeName, none, none, none, none, none, none⟩

/-- The database title as assembled for the schema output:
`"".join(t.get("plain_text", "") for t in db_json.get("title", []))`. -/
def joinedTitle (db : NDatabase) : String :=
  String.join ((db.title.getD []).map (fun t => t.plain_text.getD ""))

/-- The normalized database record returned by `extract_schema`. -/
structure SchemaOut where
  id : String
  title : String
  properties : List (String × SchemaEntry)
deriving DecidableEq

/-- The property loop of `extract_schema`: normalize each property in order,
aborting (as a raise would) when any single entry fails. -/
def schemaEntries (db : NDatabase) (db_pool : Pool) :
    List (String × NProperty) → Option (List (String × SchemaEntry))
  | [] => some []
  | np :: rest =>
    match schemaEntry db db_pool np.2, schemaEntries db db_pool rest with
    | some e, some out => some ((np.1, e) :: out)
    | _, _ => none

/-- Source `extract_schema`; `none` when the Python code would
raise while normalizing some property. -/
def extract_schema (db : NDatabase) (db_pool : Pool) : Option SchemaOut :=
  (schemaEntries db db_pool db.properties).map
    (fun out =>
      ⟨db.id,
       if joinedTitle db = "" then "(Untitled)" else joinedTitle db,
       out⟩)

/-- One cell of a queried record (`row["properties"][name]`), dispatching on
the cell's `type` as the sampling loop does.  People names and relation ids
are read with `.get(...)`, hence optional; title fragments are read with
direct indexing (`t["plain_text"]`), and Notion row payloads always carry
that key, so they are plain strings here. -/
inductive CellPayload where
  | title (fragments : List String)
  | people (names : List (Option String))
  | relation (ids : List (Option String))
  | other (typeName : String)
deriving DecidableEq

/-- One queried record: its `properties` dict in insertion order. -/
structure NRow where
  properties : List (String × CellPayload)
deriving DecidableEq

/-- One response of the paginated query endpoint: either a transport-level
failure (`not resp.ok`) or a page of results together with the continuation
cursor and the `has_more` flag. -/
inductive PageResp where
  | fail
  | ok (results : List NRow) (next_cursor : Option String) (has_more : Bool)
deriving DecidableEq

/-- The pagination loop of `collect_reference_rows`, run against a script of
page responses consumed in request order.  Returns the accumulated rows and
the number of page requests issued, or `none` when the script is exhausted
while the loop would still request another page.  The loop breaks on a
failed request, then extends the rows, then breaks when the server reports
no more pages, then breaks when the accumulated rows reach the cap — in
that order, exactly as in the source. -/
def pageLoop (max_rows : Nat) (acc : List NRow) : List PageResp → Option (List NRow × Nat)
  | [] => none
  | .fail :: _ => some (acc, 1)
  | .ok results _ has_more :: rest =>
    let acc2 := acc ++ results
    if has_more = false then some (acc2, 1)
    else if max_rows ≤ acc2.length then some (acc2, 1)
    else (pageLoop max_rows acc2 rest).map (fun r => (r.1, r.2 + 1))

/-- Python `set.add`: append the value unless already present. -/
def setAdd (s : List String) (v : String) : List String :=
  if s.contains v then s else s ++ [v]

/-- Source `ref.setdefault(name, set()).add(v)`: update the entry in place, or
append a fresh singleton entry. -/
def refAdd (ref : List (String × List String)) (name v : String) :
    List (String × List String) :=
  match List.lookup name ref with
  | some _ => ref.map (fun e => if e.1 == name then (e.1, setAdd e.2 v) else e)
  | none => ref ++ [(name, setAdd [] v)]

/-- The schema-seeding pass of `collect_reference_rows`: for every
`select`/`multi_select`/`status` property with a non-empty option list,
bind the property name to the set of its declared option names. -/
def seedRef (db : NDatabase) : List (String × List String) :=
  db.properties.filterMap
    (fun np =>
      match np.2.payload with
      | .select opts => if opts.isEmpty then none else some (np.1, opts.foldl setAdd [])
      | .multi_select opts => if opts.isEmpty then none else some (np.1, opts.foldl setAdd [])
      | .status opts => if opts.isEmpty then none else some (np.1, opts.foldl setAdd [])
      | _ => none)

/-- The values one row contributes to the reference table, in cell order:
joined non-empty title text, non-empty people names, non-empty relation
ids; every other cell type is ignored. -/
def rowContribs (row : NRow) : List (String × String) :=
  row.properties.flatMap
    (fun cell =>
      match cell.2 with
      | .title frs =>
        let txt := String.join frs
        if txt = "" then [] else [(cell.1, txt)]
      | .people ps =>
        if ps.isEmpty then []
        else ps.filterMap (fun n? =>
          match n? with
          | some n => if n = "" then none else some (cell.1, n)
          | none => none)
      | .relation rs =>
        if rs.isEmpty then []
        else rs.filterMap (fun r? =>
          match r? with
          | some r => if r = "" then none else some (cell.1, r)
          | none => none)
      | .other _ => [])

/-- The row-accumulation pass of `collect_reference_rows`. -/
def applyContribs (ref : List (String × List String)) (rows : List NRow) :
    List (String × List String) :=
  rows.foldl
    (fun r row => (rowContribs row).foldl (fun r2 nv => refAdd r2 nv.1 nv.2) r)
    ref

/-- Lexicographic comparison of character lists by code point, the order
Python `sorted` uses on strings. -/
def charListLe : List Char → List Char → Bool
  | [], _ => true
  | _ :: _, [] => false
  | a :: as, b :: bs =>
    if a.toNat < b.toNat then true
    else if b.toNat < a.toNat then false
    else charListLe as bs

/-- Lexicographic string comparison by code point. -/
def strLe (a b : String) : Bool := charListLe a.data b.data

/-- The string order is total. -/
theorem charListLe_total : ∀ (a b : List Char),
    charListLe a b = true ∨ charListLe b a = true := by
  intro a
  induction a with
  | nil => intro b; left; rfl
  | cons x xs ih =>
    intro b
    cases b with
    | nil => right; rfl
    | cons y ys =>
      by_cases hxy : x.toNat < y.toNat
      · left; simp [charListLe, hxy]
      · by_cases hyx : y.toNat < x.toNat
        · right; simp [charListLe, hyx]
        · rcases ih ys with h | h
          · left; simp [charListLe, hxy, hyx, h]
          · right; simp [charListLe, hxy, hyx, h]

/-- The string order is transitive. -/
theorem charListLe_trans : ∀ (a b c : List Char),
    charListLe a b = true → charListLe b c = true → charListLe a c = true := by
  intro a
  induction a with
  | nil => intro b c _ _; rfl
  | cons x xs ih =>
    intro b c hab hbc
    cases b with
    | nil => simp [charListLe] at hab
    | cons y ys =>
      cases c with
      | nil => simp [charListLe] at hbc
      | cons z zs =>
        simp only [charListLe] at hab hbc ⊢
        by_cases hxy : x.toNat < y.toNat
        · by_cases hyz : y.toNat < z.toNat
          · have hxz : x.toNat < z.toNat := Nat.lt_trans hxy hyz
            simp [hxz]
          · by_cases hzy : z.toNat < y.toNat
            · simp [hyz, hzy] at hbc
            · have hyz' : y.toNat = z.toNat := Nat.le_antisymm
                (Nat.le_of_not_lt hzy) (Nat.le_of_not_lt hyz)
              have hxz : x.toNat < z.toNat := hyz' ▸ hxy
              simp [hxz]
        · by_cases hyx : y.toNat < x.toNat
          · simp [hxy, hyx] at hab
          · have hxy' : x.toNat = y.toNat := Nat.le_antisymm
              (Nat.le_of_not_lt hyx) (Nat.le_of_not_lt hxy)
            rw [if_neg hxy, if_neg hyx] at hab
            by_cases hyz : y.toNat < z.toNat
            · have hxz : x.toNat < z.toNat := hxy' ▸ hyz
              simp [hxz]
            · by_cases hzy : z.toNat < y.toNat
              · simp [hyz, hzy] at hbc
              · rw [if_neg hyz, if_neg hzy] at hbc
                have hyz' : y.toNat = z.toNat := Nat.le_antisymm
                  (Nat.le_of_not_lt hzy) (Nat.le_of_not_lt hyz)
                have hxz : ¬ x.toNat < z.toNat := by
                  rw [hxy', hyz']; exact Nat.lt_irrefl _
                have hzx : ¬ z.toNat < x.toNat := by
                  rw [hxy', hyz']; exact Nat.lt_irrefl _
                rw [if_neg hxz, if_neg hzx]
                exact ih ys zs hab hbc

instance : IsTotal String (fun a b => strLe a b = true) :=
  ⟨fun a b => charListLe_total a.data b.data⟩

instance : IsTrans String (fun a b => strLe a b = true) :=
  ⟨fun a b c => charListLe_trans a.data b.data c.data⟩

/-- The final pass of `collect_reference_rows`: Python `sorted` on each
accumulated set, i.e. the lexicographically sorted list of its elements. -/
def sortRef (ref : List (String × List String)) :
    List (String × List String) :=
  ref.map (fun e => (e.1, List.insertionSort (fun a b => strLe a b = true) e.2))

/-- Source `collect_reference_rows` with an explicit cap, against a page script;
`none` when the script is exhausted before the pagination loop stops. -/
def collect_reference_rows_cap (max_rows : Nat) (db : NDatabase) (pages : List PageResp) :
    Option (List (String × List String)) :=
  (pageLoop max_rows [] pages).map (fun res => sortRef (applyContribs (seedRef db) res.1))

/-- Source `collect_reference_rows` at the default cap `max_rows=10000`. -/
def collect_reference_rows (db : NDatabase) (pages : List PageResp) :
    Option (List (String × List String)) :=
  collect_reference_rows_cap 10000 db pages

/-- Source `missing.add(db_id)`: Python set insertion, modelled order-preserving. -/
def missingAdd (missing : List String) (x : String) : List String :=
  if missing.contains x then missing else missing ++ [x]

/-- The raw target ids of the `relation`-typed properties of a database, in
property order. -/
def relationTargets (db : NDatabase) : List String :=
  db.properties.filterMap
    (fun np =>
      match np.2.payload with
      | .relation rid => some rid
      | _ => none)

/-- The ids the main loop appends to the frontier after fetching `db`: every
relation target whose normalized form is not yet a pool key.  The check is
against the pool only, so two properties with the same not-yet-pooled
target both pass it. -/
def newFrontier (db : NDatabase) (pool : Pool) : List String :=
  (relationTargets db).filter (fun rid => (List.lookup (canonical_id rid) pool).isNone)

/-- The environment entries not yet fetched into the pool (first component of
the traversal's termination measure). -/
def envUnpooled (env : Env) (pool : Pool) : List (String × NDatabase) :=
  env.filter (fun e => (List.lookup e.1 pool).isNone)

/-- The number of frontier entries whose normalized id is already pooled
(second component of the traversal's termination measure). -/
def pooledCount (pool : Pool) (queue : List String) : Nat :=
  (queue.filter (fun x => (List.lookup (canonical_id x) pool).isSome)).length

/-- An element of `newFrontier` has no pool entry under its normalized id. -/
theorem lookup_isNone_of_mem_newFrontier {db : NDatabase} {pool : Pool} {x : String}
    (hx : x ∈ newFrontier db pool) :
    (List.lookup (canonical_id x) pool).isNone = true :=
  (List.mem_filter.mp hx).2

/-- No element of `newFrontier` counts as pooled. -/
theorem pooledCount_newFrontier (db : NDatabase) (pool : Pool) :
    pooledCount pool (newFrontier db pool) = 0 := by
  unfold pooledCount
  rw [List.length_eq_zero]
  rw [List.filter_eq_nil_iff]
  intro a ha
  have := lookup_isNone_of_mem_newFrontier ha
  simp [Option.isNone_iff_eq_none.mp this]

/-- The pooled count distributes over append. -/
theorem pooledCount_append (pool : Pool) (q₁ q₂ : List String) :
    pooledCount pool (q₁ ++ q₂) = pooledCount pool q₁ + pooledCount pool q₂ := by
  unfold pooledCount
  rw [List.filter_append, List.length_append]

/-- The breadth-first traversal of `main`: dequeue an id; serve it from the
pool if its normalized form is already pooled, otherwise fetch it (logging
the network request), pooling it on success and recording it in `missing`
on failure; after a successful or cached fetch, append to the frontier
every relation target not yet pooled.  Returns the final pool, the missing
set, and the fetch log. -/
def bfsRun (env : Env) (pool : Pool) (queue : List String)
    (missing : List String) (flog : List String) :
    Pool × List String × List String :=
  match queue with
  | [] => (pool, missing, flog)
  | db_id :: rest =>
    match h1 : List.lookup (canonical_id db_id) pool with
    | some db => bfsRun env pool (rest ++ newFrontier db pool) missing flog
    | none =>
      match h2 : List.lookup (canonical_id db_id) env with
      | some db =>
        bfsRun env (pool ++ [(canonical_id db_id, db)])
          (rest ++ newFrontier db (pool ++ [(canonical_id db_id, db)]))
          missing (flog ++ [db_id])
      | none =>
        bfsRun env pool rest (missingAdd missing db_id) (flog ++ [db_id])
termination_by ((envUnpooled env pool).length, pooledCount pool queue, queue.length)
decreasing_by
  · apply Prod.Lex.right
    apply Prod.Lex.left
    rw [pooledCount_append, pooledCount_newFrontier]
    unfold pooledCount
    rw [List.filter_cons]
    simp [h1]
  · apply Prod.Lex.left
    unfold envUnpooled
    apply length_filter_lt_of_witness
      (a := (canonical_id db_id, db)) (l := env)
      (p := fun e => (List.lookup e.1 (pool ++ [(canonical_id db_id, db)])).isNone)
      (q := fun e => (List.lookup e.1 pool).isNone)
    · intro x _ hx
      dsimp only at hx ⊢
      rw [lookup_append] at hx
      rcases h : List.lookup x.1 pool with _ | v
      · simp
      · rw [h] at hx
        simp [Option.orElse] at hx
    · exact mem_of_lookup_eq_some h2
    · simp [h1]
    · rw [lookup_append, h1]
      simp [Option.orElse, List.lookup]
  · have hpc : pooledCount pool (db_id :: rest) = pooledCount pool rest := by
      unfold pooledCount
      rw [List.filter_cons]
      simp [h1]
    rw [hpc]
    apply Prod.Lex.right
    apply Prod.Lex.right
    simp

/-- Step equation: an empty frontier ends the traversal. -/
theorem bfsRun_nil (env : Env) (pool : Pool) (missing flog : List String) :
    bfsRun env pool [] missing flog = (pool, missing, flog) := by
  rw [bfsRun]

/-- Step equation: a dequeued id whose normalized form is already pooled is
served from the pool, with no network request. -/
theorem bfsRun_cached {pool : Pool} {db_id : String} {db : NDatabase}
    (env : Env) (rest missing flog : List String)
    (h1 : List.lookup (canonical_id db_id) pool = some db) :
    bfsRun env pool (db_id :: rest) missing flog =
      bfsRun env pool (rest ++ newFrontier db pool) missing flog := by
  conv_lhs => rw [bfsRun]
  split
  · next db' heq => rw [h1] at heq; cases heq; rfl
  · next heq => rw [h1] at heq; cases heq

/-- Step equation: a dequeued id not yet pooled is fetched; on success it is
pooled and its not-yet-pooled relation targets join the frontier. -/
theorem bfsRun_fetch {pool : Pool} {db_id : String} {db : NDatabase}
    (env : Env) (rest missing flog : List String)
    (h1 : List.lookup (canonical_id db_id) pool = none)
    (h2 : List.lookup (canonical_id db_id) env = some db) :
    bfsRun env pool (db_id :: rest) missing flog =
      bfsRun env (pool ++ [(canonical_id db_id, db)])
        (rest ++ newFrontier db (pool ++ [(canonical_id db_id, db)]))
        missing (flog ++ [db_id]) := by
  conv_lhs => rw [bfsRun]
  split
  · next db' heq => rw [h1] at heq; cases heq
  · next heq =>
    split
    · next db' heq2 => rw [h2] at heq2; cases heq2; rfl
    · next heq2 => rw [h2] at heq2; cases heq2

/-- Step equation: a dequeued id not yet pooled whose fetch fails is recorded
in the missing set and the traversal continues with the remaining
frontier. -/
theorem bfsRun_fail {pool : Pool} {db_id : String}
    (env : Env) (rest missing flog : List String)
    (h1 : List.lookup (canonical_id db_id) pool = none)
    (h2 : List.lookup (canonical_id db_id) env = none) :
    bfsRun env pool (db_id :: rest) missing flog =
      bfsRun env pool rest (missingAdd missing db_id) (flog ++ [db_id]) := by
  conv_lhs => rw [bfsRun]
  split
  · next db' heq => rw [h1] at heq; cases heq
  · next heq =>
    split
    · next db' heq2 => rw [h2] at heq2; cases heq2
    · next heq2 => rfl

/-- The whole traversal of `main`, from the root identifier. -/
def mainTraverse (env : Env) (root : String) : Pool × List String × List String :=
  bfsRun env [] [root] [] []

/-- The `schema` output mapping: one `extract_schema` entry per pooled
database, keyed by normalized id, in pool order. -/
def schemaOutOf (pool : Pool) : List (String × Option SchemaOut) :=
  pool.map (fun e => (e.1, extract_schema e.2 pool))

/-- The `reference` output mapping: one `collect_reference_rows` result per
pooled database, keyed by normalized id, against a per-database page
script. -/
def referenceOutOf (pool : Pool) (scripts : String → List PageResp) :
    List (String × Option (List (String × List String))) :=
  pool.map (fun e => (e.1, collect_reference_rows e.2 (scripts e.1)))

/-- Transitive reachability over the environment: the normalized root is
reachable, and from a reachable database every relation target's
normalized id is reachable. -/
inductive Reachable (env : Env) (root : String) : String → Prop
  | root : Reachable env root (canonical_id root)
  | step {c : String} {db : NDatabase} {r : String} :
      Reachable env root c → List.lookup c env = some db →
      r ∈ relationTargets db → Reachable env root (canonical_id r)

/-- Every fetch the traversal can attempt succeeds: the root resolves in the
environment and so does every relation target of every environment
database. -/
def EnvClosed (env : Env) (root : String) : Prop :=
  (List.lookup (canonical_id root) env).isSome = true ∧
  ∀ e ∈ env, ∀ r ∈ relationTargets e.2, (List.lookup (canonical_id r) env).isSome = true

instance (env : Env) (root : String) : Decidable (EnvClosed env root) := by
  unfold EnvClosed
  infer_instance

/-- In a closed environment every reachable id resolves. -/
theorem reachable_lookup_isSome {env : Env} {root : String}
    (hcl : EnvClosed env root) {c : String} (h : Reachable env root c) :
    (List.lookup c env).isSome = true := by
  induction h with
  | root => exact hcl.1
  | step hr hl ht ih => exact hcl.2 _ (mem_of_lookup_eq_some hl) _ ht

/-- Key membership in an association list is successful lookup. -/
theorem mem_keys_iff_lookup_isSome {β : Type} {k : String} {l : List (String × β)} :
    k ∈ l.map Prod.fst ↔ (List.lookup k l).isSome = true := by
  constructor
  · exact lookup_isSome_of_mem_keys
  · intro h
    rcases Option.isSome_iff_exists.mp h with ⟨v, hv⟩
    exact mem_keys_of_lookup_eq_some hv

/-- A relation-typed property contributes its target to `relationTargets`. -/
theorem mem_relationTargets {db : NDatabase} {n : String} {p : NProperty} {r : String}
    (hmem : (n, p) ∈ db.properties) (hp : p.payload = .relation r) :
    r ∈ relationTargets db := by
  unfold relationTargets
  exact List.mem_filterMap.mpr ⟨(n, p), hmem, by rw [hp]⟩

/-- The invariant the traversal maintains over (pool, frontier, fetch log)
when every fetch succeeds. -/
structure TravInv (env : Env) (root : String) (pool : Pool) (queue : List String)
    (flog : List String) : Prop where
  pool_env : ∀ e ∈ pool, List.lookup e.1 env = some e.2
  pool_canon : ∀ e ∈ pool, canonical_id e.1 = e.1
  pool_nodup : (pool.map Prod.fst).Nodup
  pool_reach : ∀ e ∈ pool, Reachable env root e.1
  queue_reach : ∀ x ∈ queue, Reachable env root (canonical_id x)
  pool_closure : ∀ e ∈ pool, ∀ r ∈ relationTargets e.2,
      ((List.lookup (canonical_id r) pool).isSome = true ∨
        ∃ x ∈ queue, canonical_id x = canonical_id r)
  root_cov : (List.lookup (canonical_id root) pool).isSome = true ∨
      ∃ x ∈ queue, canonical_id x = canonical_id root
  flog_count : ∀ c, (List.lookup c env).isSome = true →
      (flog.filter (fun x => canonical_id x == c)).length =
        (if (List.lookup c pool).isSome = true then 1 else 0)

/-- The initial state satisfies the traversal invariant. -/
theorem travInv_init (env : Env) (root : String) : TravInv env root [] [root] [] := by
  constructor
  · intro e he; simp at he
  · intro e he; simp at he
  · simp
  · intro e he; simp at he
  · intro x hx
    rcases List.mem_singleton.mp hx with rfl
    exact Reachable.root
  · intro e he; simp at he
  · exact Or.inr ⟨root, List.mem_singleton_self root, rfl⟩
  · intro c _
    simp [List.lookup]

/-- Main loop lemma: from any state satisfying the invariant, in a closed
environment, the traversal ends with pool keys that are exactly the
reachable normalized ids, without duplicates, and with exactly one logged
fetch per reachable id. -/
theorem bfsRun_closed_post (env : Env) (root : String) (hcl : EnvClosed env root)
    (pool : Pool) (queue missing flog : List String) :
    TravInv env root pool queue flog →
    ((bfsRun env pool queue missing flog).1.map Prod.fst).Nodup ∧
    (∀ c, c ∈ (bfsRun env pool queue missing flog).1.map Prod.fst ↔ Reachable env root c) ∧
    (∀ c, Reachable env root c →
      (((bfsRun env pool queue missing flog).2.2.filter
          (fun x => canonical_id x == c)).length = 1)) := by
  induction pool, queue, missing, flog using bfsRun.induct env with
  | case1 pool missing flog =>
    intro inv
    rw [bfsRun_nil]
    have hmem : ∀ c, c ∈ pool.map Prod.fst ↔ Reachable env root c := by
      intro c
      constructor
      · intro hc
        rcases List.mem_map.mp hc with ⟨e, he, rfl⟩
        exact inv.pool_reach e he
      · intro hr
        induction hr with
        | root =>
          rcases inv.root_cov with h | h
          · exact mem_keys_iff_lookup_isSome.mpr h
          · rcases h with ⟨x, hx, _⟩; simp at hx
        | step hr' hl ht ih =>
          rcases Option.isSome_iff_exists.mp (mem_keys_iff_lookup_isSome.mp ih) with ⟨d, hd⟩
          have hde : (_, d) ∈ pool := mem_of_lookup_eq_some hd
          have henv := inv.pool_env _ hde
          rw [hl] at henv
          cases henv
          rcases inv.pool_closure _ hde _ ht with h | h
          · exact mem_keys_iff_lookup_isSome.mpr h
          · rcases h with ⟨x, hx, _⟩; simp at hx
    refine ⟨inv.pool_nodup, hmem, ?_⟩
    intro c hr
    have hc := (hmem c).mpr hr
    have hsome := mem_keys_iff_lookup_isSome.mp hc
    have := inv.flog_count c (reachable_lookup_isSome hcl hr)
    rw [if_pos hsome] at this
    exact this
  | case2 pool missing flog db_id rest db h1 ih =>
    intro inv
    rw [bfsRun_cached env _ _ _ h1]
    apply ih
    have hdbmem : (canonical_id db_id, db) ∈ pool := mem_of_lookup_eq_some h1
    constructor
    · exact inv.pool_env
    · exact inv.pool_canon
    · exact inv.pool_nodup
    · exact inv.pool_reach
    · intro x hx
      rcases List.mem_append.mp hx with hx | hx
      · exact inv.queue_reach x (List.mem_cons_of_mem _ hx)
      · have hxt : x ∈ relationTargets db := (List.mem_filter.mp hx).1
        exact Reachable.step (inv.pool_reach _ hdbmem) (inv.pool_env _ hdbmem) hxt
    · intro e he r hr
      rcases inv.pool_closure e he r hr with h | h
      · exact Or.inl h
      · rcases h with ⟨x, hx, hxc⟩
        rcases List.mem_cons.mp hx with rfl | hx
        · rw [← hxc, h1]
          exact Or.inl rfl
        · exact Or.inr ⟨x, List.mem_append_left _ hx, hxc⟩
    · rcases inv.root_cov with h | h
      · exact Or.inl h
      · rcases h with ⟨x, hx, hxc⟩
        rcases List.mem_cons.mp hx with rfl | hx
        · rw [← hxc, h1]
          exact Or.inl rfl
        · exact Or.inr ⟨x, List.mem_append_left _ hx, hxc⟩
    · exact inv.flog_count
  | case3 pool missing flog db_id rest h1 db h2 ih =>
    intro inv
    rw [bfsRun_fetch env _ _ _ h1 h2]
    apply ih
    have hreach : Reachable env root (canonical_id db_id) :=
      inv.queue_reach db_id (List.mem_cons_self _ _)
    have hlkp : ∀ c, List.lookup c (pool ++ [(canonical_id db_id, db)]) =
        ((List.lookup c pool).orElse (fun _ => List.lookup c [(canonical_id db_id, db)])) :=
      fun c => lookup_append c pool _
    have hlkp_new : List.lookup (canonical_id db_id) (pool ++ [(canonical_id db_id, db)]) =
        some db := by
      rw [hlkp, h1]
      simp [List.lookup]
    constructor
    · intro e he
      rcases List.mem_append.mp he with he | he
      · exact inv.pool_env e he
      · rcases List.mem_singleton.mp he with rfl
        exact h2
    · intro e he
      rcases List.mem_append.mp he with he | he
      · exact inv.pool_canon e he
      · rcases List.mem_singleton.mp he with rfl
        exact canonical_id_idem db_id
    · rw [List.map_append]
      rw [List.nodup_append]
      refine ⟨inv.pool_nodup, List.nodup_singleton _, ?_⟩
      intro a ha hb
      rcases List.mem_singleton.mp hb with rfl
      exact not_mem_keys_of_lookup_eq_none h1 ha
    · intro e he
      rcases List.mem_append.mp he with he | he
      · exact inv.pool_reach e he
      · rcases List.mem_singleton.mp he with rfl
        exact hreach
    · intro x hx
      rcases List.mem_append.mp hx with hx | hx
      · exact inv.queue_reach x (List.mem_cons_of_mem _ hx)
      · have hxt : x ∈ relationTargets db := (List.mem_filter.mp hx).1
        exact Reachable.step hreach h2 hxt
    · intro e he r hr
      rcases List.mem_append.mp he with he | he
      · rcases inv.pool_closure e he r hr with h | h
        · left
          rw [hlkp]
          rcases Option.isSome_iff_exists.mp h with ⟨v, hv⟩
          rw [hv]
          rfl
        · rcases h with ⟨x, hx, hxc⟩
          rcases List.mem_cons.mp hx with rfl | hx
          · left
            rw [← hxc, hlkp_new]
            rfl
          · exact Or.inr ⟨x, List.mem_append_left _ hx, hxc⟩
      · rcases List.mem_singleton.mp he with rfl
        by_cases hpod : (List.lookup (canonical_id r)
            (pool ++ [(canonical_id db_id, db)])).isSome = true
        · exact Or.inl hpod
        · right
          refine ⟨r, List.mem_append_right _ ?_, rfl⟩
          unfold newFrontier
          refine List.mem_filter.mpr ⟨hr, ?_⟩
          simp only [Option.isNone_iff_eq_none]
          rcases h : List.lookup (canonical_id r) (pool ++ [(canonical_id db_id, db)]) with
            _ | v
          · rfl
          · rw [h] at hpod
            simp at hpod
    · rcases inv.root_cov with h | h
      · left
        rw [hlkp]
        rcases Option.isSome_iff_exists.mp h with ⟨v, hv⟩
        rw [hv]
        rfl
      · rcases h with ⟨x, hx, hxc⟩
        rcases List.mem_cons.mp hx with rfl | hx
        · left
          rw [← hxc, hlkp_new]
          rfl
        · exact Or.inr ⟨x, List.mem_append_left _ hx, hxc⟩
    · intro c hcenv
      have hold := inv.flog_count c hcenv
      rw [List.filter_append]
      by_cases hc : canonical_id db_id = c
      · subst hc
        have hbeq : (canonical_id db_id == canonical_id db_id) = true := by simp
        rw [h1] at hold
        simp only [Option.isSome_none, Bool.false_eq_true, if_false] at hold
        rw [List.length_append, hold, hlkp_new]
        simp [hbeq]
      · have hbeq : (canonical_id db_id == c) = false := by
          simp [hc]
        have hcne : (c == canonical_id db_id) = false := by
          have hne : c ≠ canonical_id db_id := fun hh => hc hh.symm
          simp [hne]
        have hsame : List.lookup c (pool ++ [(canonical_id db_id, db)]) =
            List.lookup c pool := by
          rw [hlkp]
          cases h : List.lookup c pool with
          | none => simp [Option.orElse, List.lookup, hcne]
          | some v => simp [Option.orElse]
        rw [hsame, List.length_append]
        simp [hbeq, hold]
  | case4 pool missing flog db_id rest h1 h2 ih =>
    intro inv
    exfalso
    have hreach : Reachable env root (canonical_id db_id) :=
      inv.queue_reach db_id (List.mem_cons_self _ _)
    have := reachable_lookup_isSome hcl hreach
    rw [h2] at this
    simp at this

/-- Unconditional loop lemma: ids recorded in the missing set never resolve
in the environment, while every pool entry is an environment entry keyed by
its own normalized id. -/
theorem bfsRun_missing_post (env : Env) (pool : Pool) (queue missing flog : List String) :
    (∀ x ∈ missing, List.lookup (canonical_id x) env = none) →
    (∀ e ∈ pool, List.lookup e.1 env = some e.2) →
    (∀ e ∈ pool, canonical_id e.1 = e.1) →
    (∀ x ∈ (bfsRun env pool queue missing flog).2.1,
        List.lookup (canonical_id x) env = none) ∧
    (∀ e ∈ (bfsRun env pool queue missing flog).1,
        List.lookup e.1 env = some e.2) ∧
    (∀ e ∈ (bfsRun env pool queue missing flog).1, canonical_id e.1 = e.1) := by
  induction pool, queue, missing, flog using bfsRun.induct env with
  | case1 pool missing flog =>
    intro hm hp hc
    rw [bfsRun_nil]
    exact ⟨hm, hp, hc⟩
  | case2 pool missing flog db_id rest db h1 ih =>
    intro hm hp hc
    rw [bfsRun_cached env _ _ _ h1]
    exact ih hm hp hc
  | case3 pool missing flog db_id rest h1 db h2 ih =>
    intro hm hp hc
    rw [bfsRun_fetch env _ _ _ h1 h2]
    apply ih hm
    · intro e he
      rcases List.mem_append.mp he with he | he
      · exact hp e he
      · rcases List.mem_singleton.mp he with rfl
        exact h2
    · intro e he
      rcases List.mem_append.mp he with he | he
      · exact hc e he
      · rcases List.mem_singleton.mp he with rfl
        exact canonical_id_idem db_id
  | case4 pool missing flog db_id rest h1 h2 ih =>
    intro hm hp hc
    rw [bfsRun_fail env _ _ _ h1 h2]
    apply ih _ hp hc
    intro x hx
    unfold missingAdd at hx
    by_cases hmem : missing.contains db_id
    · rw [if_pos hmem] at hx
      exact hm x hx
    · rw [if_neg hmem] at hx
      rcases List.mem_append.mp hx with hx | hx
      · exact hm x hx
      · rcases List.mem_singleton.mp hx with rfl
        exact h2

/-- The keys of the `schema` output are exactly the pool keys. -/
theorem schemaOutOf_keys (pool : Pool) :
    (schemaOutOf pool).map Prod.fst = pool.map Prod.fst := by
  unfold schemaOutOf
  rw [List.map_map]
  rfl

/-- The keys of the `reference` output are exactly the pool keys. -/
theorem referenceOutOf_keys (pool : Pool) (scripts : String → List PageResp) :
    (referenceOutOf pool scripts).map Prod.fst = pool.map Prod.fst := by
  unfold referenceOutOf
  rw [List.map_map]
  rfl

/-- The number of result rows a page response carries. -/
def respLen : PageResp → Nat
  | .fail => 0
  | .ok results _ _ => results.length

/-- A failed page request stops pagination at once, whatever follows. -/
theorem pageLoop_fail (max_rows : Nat) (acc : List NRow) (rest : List PageResp) :
    pageLoop max_rows acc (.fail :: rest) = some (acc, 1) := rfl

/-- A page with `has_more = false` stops pagination after extending the
rows, whatever follows. -/
theorem pageLoop_no_more (max_rows : Nat) (acc results : List NRow) (nc : Option String)
    (rest : List PageResp) :
    pageLoop max_rows acc (.ok results nc false :: rest) = some (acc ++ results, 1) := by
  simp [pageLoop]

/-- A page that brings the accumulated rows to the cap stops pagination even
when the server reports more pages. -/
theorem pageLoop_cap (max_rows : Nat) (acc results : List NRow) (nc : Option String)
    (hm : Bool) (rest : List PageResp)
    (hcap : max_rows ≤ (acc ++ results).length) :
    pageLoop max_rows acc (.ok results nc hm :: rest) = some (acc ++ results, 1) := by
  have hcap' : max_rows ≤ acc.length + results.length := by simpa using hcap
  cases hm
  · simp [pageLoop]
  · simp [pageLoop, hcap']

/-- The loop stops within any script containing a failed page or a page with
`has_more = false`. -/
theorem pageLoop_isSome_of_stop (max_rows : Nat) :
    ∀ (rs : List PageResp) (acc : List NRow),
      (∃ p ∈ rs, p = .fail ∨ ∃ res nc, p = .ok res nc false) →
      (pageLoop max_rows acc rs).isSome = true := by
  intro rs
  induction rs with
  | nil =>
    intro acc h
    rcases h with ⟨p, hp, _⟩
    simp at hp
  | cons p ps ih =>
    intro acc h
    cases p with
    | fail => rw [pageLoop_fail]; rfl
    | ok results nc hm =>
      cases hm with
      | false => rw [pageLoop_no_more]; rfl
      | true =>
        by_cases hcap : max_rows ≤ (acc ++ results).length
        · rw [pageLoop_cap max_rows acc results nc true ps hcap]; rfl
        · have hcap' : ¬ max_rows ≤ acc.length + results.length := by simpa using hcap
          have hstep : pageLoop max_rows acc (.ok results nc true :: ps) =
              (pageLoop max_rows (acc ++ results) ps).map (fun r => (r.1, r.2 + 1)) := by
            simp [pageLoop, hcap']
          rw [hstep]
          have hps : ∃ p ∈ ps, p = .fail ∨ ∃ res nc2, p = .ok res nc2 false := by
            rcases h with ⟨q, hq, hstop⟩
            rcases List.mem_cons.mp hq with rfl | hq
            · rcases hstop with h' | ⟨res2, nc2, h'⟩
              · cases h'
              · cases h'
            · exact ⟨q, hq, hstop⟩
          have := ih (acc ++ results) hps
          rcases Option.isSome_iff_exists.mp this with ⟨v, hv⟩
          rw [hv]
          rfl

/-- The loop stops within any script whose cumulative results reach the cap
by some page, whatever the `has_more` flags say. -/
theorem pageLoop_isSome_of_cap (max_rows : Nat) :
    ∀ (k : Nat) (rs : List PageResp) (acc : List NRow), k < rs.length →
      max_rows ≤ acc.length + (((rs.take (k+1)).map respLen).sum) →
      (pageLoop max_rows acc rs).isSome = true := by
  intro k
  induction k with
  | zero =>
    intro rs acc hk hcap
    cases rs with
    | nil => simp at hk
    | cons p ps =>
      cases p with
      | fail => rw [pageLoop_fail]; rfl
      | ok results nc hm =>
        simp [respLen] at hcap
        have hcap2 : max_rows ≤ (acc ++ results).length := by
          rw [List.length_append]
          omega
        rw [pageLoop_cap max_rows acc results nc hm ps hcap2]
        rfl
  | succ k ih =>
    intro rs acc hk hcap
    cases rs with
    | nil => simp at hk
    | cons p ps =>
      cases p with
      | fail => rw [pageLoop_fail]; rfl
      | ok results nc hm =>
        cases hm with
        | false => rw [pageLoop_no_more]; rfl
        | true =>
          by_cases hcap2 : max_rows ≤ (acc ++ results).length
          · rw [pageLoop_cap max_rows acc results nc true ps hcap2]; rfl
          · have hcap2' : ¬ max_rows ≤ acc.length + results.length := by simpa using hcap2
            have hstep : pageLoop max_rows acc (.ok results nc true :: ps) =
                (pageLoop max_rows (acc ++ results) ps).map (fun r => (r.1, r.2 + 1)) := by
              simp [pageLoop, hcap2']
            rw [hstep]
            have hk' : k < ps.length := by simpa using hk
            have hcap' : max_rows ≤ (acc ++ results).length +
                (((ps.take (k+1)).map respLen).sum) := by
              simp [respLen, List.length_append] at hcap ⊢
              omega
            have := ih ps (acc ++ results) hk' hcap'
            rcases Option.isSome_iff_exists.mp this with ⟨v, hv⟩
            rw [hv]
            rfl

/-- Everything after the first failed page is irrelevant to the loop. -/
theorem pageLoop_fail_truncates (max_rows : Nat) :
    ∀ (pre : List PageResp) (acc : List NRow) (rest : List PageResp),
      pageLoop max_rows acc (pre ++ .fail :: rest) =
        pageLoop max_rows acc (pre ++ [.fail]) := by
  intro pre
  induction pre with
  | nil => intro acc rest; rw [List.nil_append, List.nil_append, pageLoop_fail, pageLoop_fail]
  | cons p ps ih =>
    intro acc rest
    cases p with
    | fail => rw [List.cons_append, List.cons_append, pageLoop_fail, pageLoop_fail]
    | ok results nc hm =>
      cases hm with
      | false =>
        rw [List.cons_append, List.cons_append, pageLoop_no_more, pageLoop_no_more]
      | true =>
        by_cases hcap : max_rows ≤ (acc ++ results).length
        · rw [List.cons_append, List.cons_append,
            pageLoop_cap max_rows acc results nc true _ hcap,
            pageLoop_cap max_rows acc results nc true _ hcap]
        · have hcap' : ¬ max_rows ≤ acc.length + results.length := by simpa using hcap
          have hstep : ∀ tail, pageLoop max_rows acc (.ok results nc true :: tail) =
              (pageLoop max_rows (acc ++ results) tail).map (fun r => (r.1, r.2 + 1)) := by
            intro tail
            simp [pageLoop, hcap']
          rw [List.cons_append, List.cons_append, hstep, hstep, ih]

/-- Keys are preserved by the final per-property sort. -/
theorem sortRef_lookup (l : List (String × List String)) (k : String) :
    List.lookup k (sortRef l) =
      (List.lookup k l).map (List.insertionSort (fun a b => strLe a b = true)) := by
  induction l with
  | nil => simp [sortRef, List.lookup]
  | cons e t ih =>
    unfold sortRef at ih ⊢
    by_cases hk : k == e.1
    · simp [List.lookup, hk]
    · have hf : (k == e.1) = false := by simpa using hk
      simp only [List.map_cons, List.lookup, hf]
      exact ih

/-- A key not among an association list's keys fails to look up. -/
theorem lookup_eq_none_of_not_mem_keys {β : Type} {k : String} {l : List (String × β)}
    (h : k ∉ l.map Prod.fst) : List.lookup k l = none := by
  cases hl : List.lookup k l with
  | none => rfl
  | some v => exact absurd (mem_keys_of_lookup_eq_some hl) h

/-- Adding a reference value never introduces a key other than the one added. -/
theorem refAdd_lookup_none {ref : List (String × List String)} {k n v : String}
    (hk : k ≠ n) (h : List.lookup k ref = none) :
    List.lookup k (refAdd ref n v) = none := by
  unfold refAdd
  cases List.lookup n ref with
  | some s =>
    apply lookup_eq_none_of_not_mem_keys
    intro hmem
    apply not_mem_keys_of_lookup_eq_none h
    rcases List.mem_map.mp hmem with ⟨e, he, hfst⟩
    rcases List.mem_map.mp he with ⟨e0, he0, hfe⟩
    refine List.mem_map.mpr ⟨e0, he0, ?_⟩
    by_cases hb : e0.1 == n
    · rw [← hfst, ← hfe]
      simp [hb]
    · have hb' : (e0.1 == n) = false := by simpa using hb
      rw [← hfst, ← hfe]
      simp [hb']
  | none =>
    rw [lookup_append, h]
    have : (k == n) = false := by simpa using hk
    simp [Option.orElse, List.lookup, this]

/-- Folding `refAdd` over contributions that never mention `k` leaves `k`
absent. -/
theorem foldl_refAdd_lookup_none {k : String} :
    ∀ (contribs : List (String × String)) (ref : List (String × List String)),
      k ∉ contribs.map Prod.fst → List.lookup k ref = none →
      List.lookup k (contribs.foldl (fun r2 nv => refAdd r2 nv.1 nv.2) ref) = none := by
  intro contribs
  induction contribs with
  | nil => intro ref _ h; simpa using h
  | cons c cs ih =>
    intro ref hnm h
    simp only [List.foldl_cons]
    have hk1 : k ≠ c.1 := by
      intro hkc
      exact hnm (List.mem_map.mpr ⟨c, List.mem_cons_self _ _, hkc.symm⟩)
    apply ih
    · intro hmem
      rcases List.mem_map.mp hmem with ⟨e, he, hfe⟩
      exact hnm (List.mem_map.mpr ⟨e, List.mem_cons_of_mem _ he, hfe⟩)
    · exact refAdd_lookup_none hk1 h

/-- Accumulating rows that never contribute to `k` leaves `k` absent. -/
theorem applyContribs_lookup_none {k : String} :
    ∀ (rows : List NRow) (ref : List (String × List String)),
      (k ∉ (rows.flatMap rowContribs).map Prod.fst) → List.lookup k ref = none →
      List.lookup k (applyContribs ref rows) = none := by
  intro rows
  induction rows with
  | nil => intro ref _ h; simpa [applyContribs] using h
  | cons row rs ih =>
    intro ref hnm h
    unfold applyContribs
    simp only [List.foldl_cons]
    have hsplit : k ∉ ((rowContribs row).map Prod.fst) ∧
        k ∉ ((rs.flatMap rowContribs).map Prod.fst) := by
      constructor
      · intro hmem
        apply hnm
        rcases List.mem_map.mp hmem with ⟨e, he, hfe⟩
        exact List.mem_map.mpr ⟨e, by
          rw [List.flatMap_cons]
          exact List.mem_append_left _ he, hfe⟩
      · intro hmem
        apply hnm
        rcases List.mem_map.mp hmem with ⟨e, he, hfe⟩
        exact List.mem_map.mpr ⟨e, by
          rw [List.flatMap_cons]
          exact List.mem_append_right _ he, hfe⟩
    have hrow := foldl_refAdd_lookup_none (rowContribs row) ref hsplit.1 h
    exact ih _ hsplit.2 hrow

/-- In a list with unique keys, a key determines its value. -/
theorem keys_nodup_unique {β : Type} {l : List (String × β)}
    (h : (l.map Prod.fst).Nodup) {k : String} {a b : β}
    (ha : (k, a) ∈ l) (hb : (k, b) ∈ l) : a = b := by
  induction l with
  | nil => simp at ha
  | cons e t ih =>
    simp only [List.map_cons, List.nodup_cons] at h
    rcases List.mem_cons.mp ha with rfl | hat
    · rcases List.mem_cons.mp hb with hbe | hbt
      · exact (congrArg Prod.snd hbe.symm : _)
      · exact absurd (List.mem_map.mpr ⟨(k, b), hbt, rfl⟩) h.1
    · rcases List.mem_cons.mp hb with rfl | hbt
      · exact absurd (List.mem_map.mpr ⟨(k, a), hat, rfl⟩) h.1
      · exact ih h.2 hat hbt

/-- A choice-typed property with an empty option list is never seeded. -/
theorem seedRef_lookup_none {db : NDatabase} {name : String} {p : NProperty}
    (hnd : (db.properties.map Prod.fst).Nodup)
    (hmem : (name, p) ∈ db.properties)
    (hopts : p.payload = .select [] ∨ p.payload = .multi_select [] ∨ p.payload = .status []) :
    List.lookup name (seedRef db) = none := by
  apply lookup_eq_none_of_not_mem_keys
  intro hk
  rcases List.mem_map.mp hk with ⟨e, he, hfe⟩
  unfold seedRef at he
  rcases List.mem_filterMap.mp he with ⟨np, hnp, hout⟩
  obtain ⟨n1, pid, pl⟩ := np
  cases pl with
  | relation rid => simp at hout
  | rollup a b => simp at hout
  | other t => simp at hout
  | select opts =>
    by_cases hop : opts.isEmpty
    · simp [hop] at hout
    · simp [hop] at hout
      rw [← hout] at hfe
      simp at hfe
      rw [hfe] at hnp
      have hval := keys_nodup_unique hnd hnp hmem
      rcases hopts with hp | hp | hp <;> rw [← hval] at hp <;> simp at hp
      rw [hp] at hop
      simp at hop
  | multi_select opts =>
    by_cases hop : opts.isEmpty
    · simp [hop] at hout
    · simp [hop] at hout
      rw [← hout] at hfe
      simp at hfe
      rw [hfe] at hnp
      have hval := keys_nodup_unique hnd hnp hmem
      rcases hopts with hp | hp | hp <;> rw [← hval] at hp <;> simp at hp
      rw [hp] at hop
      simp at hop
  | status opts =>
    by_cases hop : opts.isEmpty
    · simp [hop] at hout
    · simp [hop] at hout
      rw [← hout] at hfe
      simp at hfe
      rw [hfe] at hnp
      have hval := keys_nodup_unique hnd hnp hmem
      rcases hopts with hp | hp | hp <;> rw [← hval] at hp <;> simp at hp
      rw [hp] at hop
      simp at hop

/-- Relation branch, target not pooled: unresolved marker, no raise. -/
theorem schemaEntry_relation_miss {db : NDatabase} {pool : Pool} {p : NProperty} {rid : String}
    (hp : p.payload = .relation rid)
    (hmiss : List.lookup (canonical_id rid) pool = none) :
    schemaEntry db pool p = some ⟨"relation", some rid, some "?", none, none, none, none⟩ := by
  simp [schemaEntry, hp, hmiss]

/-- Relation branch, target pooled with a readable title: the first
fragment's text is attached, no raise. -/
theorem schemaEntry_relation_hit {db : NDatabase} {pool : Pool} {p : NProperty} {rid : String}
    {tdb : NDatabase} {t : String}
    (hp : p.payload = .relation rid)
    (hhit : List.lookup (canonical_id rid) pool = some tdb)
    (ht : firstFragmentTitle tdb = some t) :
    schemaEntry db pool p = some ⟨"relation", some rid, some t, none, none, none, none⟩ := by
  simp [schemaEntry, hp, hhit, ht]

/-- Relation branch, target pooled with a present-but-empty title list: the
unguarded `[0]` raises. -/
theorem schemaEntry_relation_raise {db : NDatabase} {pool : Pool} {p : NProperty} {rid : String}
    {tdb : NDatabase}
    (hp : p.payload = .relation rid)
    (hhit : List.lookup (canonical_id rid) pool = some tdb)
    (ht : tdb.title = some []) :
    schemaEntry db pool p = none := by
  simp [schemaEntry, hp, hhit, firstFragmentTitle, ht]

/-- Rollup branch, local relation property not found by name: target fields
are omitted, no raise. -/
theorem schemaEntry_rollup_noparent {db : NDatabase} {pool : Pool} {p : NProperty}
    {a b : Option String}
    (hp : p.payload = .rollup a b)
    (hnp : List.lookup (relationPropName db a) db.properties = none) :
    schemaEntry db pool p = some ⟨"rollup", none, none, some a,
      some (relationPropName db a), some b, none⟩ := by
  simp [schemaEntry, hp, hnp]

/-- Rollup branch, local relation property found but its target database not
pooled: target fields are omitted, no raise. -/
theorem schemaEntry_rollup_unpooled {db : NDatabase} {pool : Pool} {p : NProperty}
    {a b : Option String} {parent : NProperty} {tid : String}
    (hp : p.payload = .rollup a b)
    (hpar : List.lookup (relationPropName db a) db.properties = some parent)
    (hrel : parent.payload = .relation tid)
    (hmiss : List.lookup (canonical_id tid) pool = none) :
    schemaEntry db pool p = some ⟨"rollup", none, none, some a,
      some (relationPropName db a), some b, none⟩ := by
  simp [schemaEntry, hp, hpar, hrel, hmiss]

/-- Rollup branch, both hops resolved with a readable target title: the
target property name and target title are attached, no raise. -/
theorem schemaEntry_rollup_hit {db : NDatabase} {pool : Pool} {p : NProperty}
    {a b : Option String} {parent : NProperty} {tid : String} {tdb : NDatabase} {t : String}
    (hp : p.payload = .rollup a b)
    (hpar : List.lookup (relationPropName db a) db.properties = some parent)
    (hrel : parent.payload = .relation tid)
    (hhit : List.lookup (canonical_id tid) pool = some tdb)
    (ht : firstFragmentTitle tdb = some t) :
    schemaEntry db pool p = some ⟨"rollup", some tid, some t, some a,
      some (relationPropName db a), some b, some (rollupPropName tdb b)⟩ := by
  simp [schemaEntry, hp, hpar, hrel, hhit, ht]

/-- Every non-relation non-rollup property yields a bare typed entry. -/
theorem schemaEntry_other {db : NDatabase} {pool : Pool} {p : NProperty}
    (hp : (∀ rid, p.payload ≠ .relation rid) ∧ (∀ a b, p.payload ≠ .rollup a b)) :
    schemaEntry db pool p =
      some ⟨p.payload.typeName, none, none, none, none, none, none⟩ := by
  rcases p with ⟨pid, pl⟩
  cases pl with
  | relation rid => exact absurd rfl (hp.1 rid)
  | rollup a b => exact absurd rfl (hp.2 a b)
  | select opts => simp [schemaEntry]
  | multi_select opts => simp [schemaEntry]
  | status opts => simp [schemaEntry]
  | other t => simp [schemaEntry]

/-- The property loop succeeds when every single entry does. -/
theorem schemaEntries_isSome {db : NDatabase} {pool : Pool} :
    ∀ l : List (String × NProperty),
      (∀ np ∈ l, (schemaEntry db pool np.2).isSome = true) →
      (schemaEntries db pool l).isSome = true := by
  intro l
  induction l with
  | nil => intro _; rfl
  | cons np rest ih =>
    intro h
    have hhd := h np (List.mem_cons_self _ _)
    rcases Option.isSome_iff_exists.mp hhd with ⟨e, he⟩
    have htl := ih (fun q hq => h q (List.mem_cons_of_mem _ hq))
    rcases Option.isSome_iff_exists.mp htl with ⟨out, hout⟩
    simp [schemaEntries, he, hout]

/-- With unique property names, the output of the property loop binds each
name to its property's normalized entry. -/
theorem schemaEntries_lookup {db : NDatabase} {pool : Pool} :
    ∀ (l : List (String × NProperty)) (out : List (String × SchemaEntry)),
      (l.map Prod.fst).Nodup → schemaEntries db pool l = some out →
      ∀ n p, (n, p) ∈ l → List.lookup n out = schemaEntry db pool p := by
  intro l
  induction l with
  | nil =>
    intro out _ _ n p hmem
    simp at hmem
  | cons np rest ih =>
    intro out hnd hout n p hmem
    rcases he : schemaEntry db pool np.2 with _ | e
    · rw [schemaEntries, he] at hout
      simp at hout
    · rcases hrest : schemaEntries db pool rest with _ | out'
      · rw [schemaEntries, he, hrest] at hout
        simp at hout
      · rw [schemaEntries, he, hrest] at hout
        simp only [Option.some.injEq] at hout
        subst hout
        simp only [List.map_cons, List.nodup_cons] at hnd
        rcases List.mem_cons.mp hmem with heq | hmemr
        · have h1 : n = np.1 := by rw [← heq]
          have h2 : p = np.2 := by rw [← heq]
          subst h1
          subst h2
          simp [List.lookup, he]
        · have hne : (n == np.1) = false := by
            have : n ≠ np.1 := by
              intro hcontra
              apply hnd.1
              subst hcontra
              exact List.mem_map.mpr ⟨(np.1, p), hmemr, rfl⟩
            simpa using this
          simp only [List.lookup, hne]
          exact ih out' hnd.2 hrest n p hmemr

/-- An id already in the missing set stays there to the end of the run. -/
theorem bfsRun_missing_mono (env : Env) (pool : Pool) (queue missing flog : List String) :
    ∀ x ∈ missing, x ∈ (bfsRun env pool queue missing flog).2.1 := by
  induction pool, queue, missing, flog using bfsRun.induct env with
  | case1 pool missing flog =>
    intro x hx
    rw [bfsRun_nil]
    exact hx
  | case2 pool missing flog db_id rest db h1 ih =>
    intro x hx
    rw [bfsRun_cached env _ _ _ h1]
    exact ih x hx
  | case3 pool missing flog db_id rest h1 db h2 ih =>
    intro x hx
    rw [bfsRun_fetch env _ _ _ h1 h2]
    exact ih x hx
  | case4 pool missing flog db_id rest h1 h2 ih =>
    intro x hx
    rw [bfsRun_fail env _ _ _ h1 h2]
    apply ih
    unfold missingAdd
    by_cases hc : missing.contains db_id
    · rw [if_pos hc]; exact hx
    · rw [if_neg hc]; exact List.mem_append_left _ hx

/-- Python set insertion makes the inserted element a member. -/
theorem missingAdd_self (missing : List String) (x : String) : x ∈ missingAdd missing x := by
  unfold missingAdd
  by_cases hc : missing.contains x
  · rw [if_pos hc]
    simpa using hc
  · rw [if_neg hc]
    exact List.mem_append_right _ (List.mem_singleton_self x)

/-- Example root database for witnesses: two relation properties targeting
the same database, written once with and once without the separator. -/
def exRootDb : NDatabase :=
  ⟨"r1", some [⟨some "Root"⟩],
   [("P1", ⟨"p1", .relation "t-1"⟩), ("P2", ⟨"p2", .relation "t1"⟩)]⟩

/-- Example target database for witnesses. -/
def exTargetDb : NDatabase :=
  ⟨"t1", some [⟨some "Tgt"⟩], [("Name", ⟨"q1", .other "title"⟩)]⟩

/-- Example closed environment for witnesses. -/
def exEnv : Env := [("r1", exRootDb), ("t1", exTargetDb)]

/-- C1: for every finite environment of database descriptors and every root
identifier, if every fetch succeeds (`EnvClosed`), the `schema` output
mapping contains exactly one entry, keyed by normalized identifier, for
each database transitively reachable from the root via relation-typed
properties: its keys are duplicate-free, and a normalized id is a key if
and only if it is reachable — none missing, none duplicated, no
unreachable database included. -/
theorem C1_schema_keys_exactly_reachable (env : Env) (root : String)
    (hcl : EnvClosed env root) :
    (((schemaOutOf (mainTraverse env root).1).map Prod.fst).Nodup) ∧
    (∀ c, c ∈ (schemaOutOf (mainTraverse env root).1).map Prod.fst ↔
      Reachable env root c) := by
  have h := bfsRun_closed_post env root hcl [] [root] [] [] (travInv_init env root)
  unfold mainTraverse
  rw [schemaOutOf_keys]
  exact ⟨h.1, h.2.1⟩

/-- Witness for C1 at a concrete closed two-database environment. -/
theorem C1_schema_keys_exactly_reachable_witness :
    EnvClosed exEnv "r1" ∧
    ((((schemaOutOf (mainTraverse exEnv "r1").1).map Prod.fst).Nodup) ∧
     (∀ c, c ∈ (schemaOutOf (mainTraverse exEnv "r1").1).map Prod.fst ↔
       Reachable exEnv "r1" c)) :=
  ⟨by decide, C1_schema_keys_exactly_reachable exEnv "r1" (by decide)⟩

/-- C3: a dequeued identifier that fails to fetch is recorded in the missing
set and the traversal continues with the remaining frontier (the run does
not abort); the recorded identifier survives to the final missing set, and
every identifier in the final missing set resolves to nothing in the
environment and appears as a key in neither the `schema` nor the
`reference` output, under either its raw or its normalized spelling. -/
theorem C3_failed_fetch_recorded_and_excluded (env : Env) (root : String)
    (scripts : String → List PageResp)
    (pool : Pool) (db_id : String) (rest missing flog : List String)
    (h1 : List.lookup (canonical_id db_id) pool = none)
    (h2 : List.lookup (canonical_id db_id) env = none) :
    (bfsRun env pool (db_id :: rest) missing flog =
      bfsRun env pool rest (missingAdd missing db_id) (flog ++ [db_id])) ∧
    (db_id ∈ (bfsRun env pool (db_id :: rest) missing flog).2.1) ∧
    (∀ x ∈ (mainTraverse env root).2.1,
      List.lookup (canonical_id x) env = none ∧
      x ∉ (schemaOutOf (mainTraverse env root).1).map Prod.fst ∧
      canonical_id x ∉ (schemaOutOf (mainTraverse env root).1).map Prod.fst ∧
      x ∉ (referenceOutOf (mainTraverse env root).1 scripts).map Prod.fst ∧
      canonical_id x ∉ (referenceOutOf (mainTraverse env root).1 scripts).map Prod.fst) := by
  refine ⟨bfsRun_fail env rest missing flog h1 h2, ?_, ?_⟩
  · rw [bfsRun_fail env rest missing flog h1 h2]
    exact bfsRun_missing_mono env pool rest (missingAdd missing db_id) (flog ++ [db_id])
      db_id (missingAdd_self missing db_id)
  · have h := bfsRun_missing_post env [] [root] [] []
      (by intro x hx; simp at hx) (by intro e he; simp at he) (by intro e he; simp at he)
    intro x hx
    unfold mainTraverse at hx ⊢
    have hm := h.1 x hx
    have hnotc : canonical_id x ∉ (bfsRun env [] [root] [] []).1.map Prod.fst := by
      intro hk
      rcases List.mem_map.mp hk with ⟨e, he, hfe⟩
      have := h.2.1 e he
      rw [hfe] at this
      rw [hm] at this
      cases this
    have hnotx : x ∉ (bfsRun env [] [root] [] []).1.map Prod.fst := by
      intro hk
      rcases List.mem_map.mp hk with ⟨e, he, hfe⟩
      have hcan := h.2.2 e he
      have henv := h.2.1 e he
      rw [hfe] at hcan henv
      rw [hcan] at hm
      rw [hm] at henv
      cases henv
    rw [schemaOutOf_keys, referenceOutOf_keys]
    exact ⟨hm, hnotx, hnotc, hnotx, hnotc⟩

/-- Witness for C3: a root whose fetch fails against an empty environment. -/
theorem C3_failed_fetch_recorded_and_excluded_witness :
    (List.lookup (canonical_id "zz") ([] : Pool) = none) ∧
    (List.lookup (canonical_id "zz") ([] : Env) = none) ∧
    ((bfsRun [] [] ("zz" :: []) [] [] =
        bfsRun [] [] [] (missingAdd [] "zz") ([] ++ ["zz"])) ∧
     ("zz" ∈ (bfsRun [] [] ("zz" :: []) [] []).2.1) ∧
     (∀ x ∈ (mainTraverse [] "zz").2.1,
       List.lookup (canonical_id x) ([] : Env) = none ∧
       x ∉ (schemaOutOf (mainTraverse [] "zz").1).map Prod.fst ∧
       canonical_id x ∉ (schemaOutOf (mainTraverse [] "zz").1).map Prod.fst ∧
       x ∉ (referenceOutOf (mainTraverse [] "zz").1 (fun _ => [])).map Prod.fst ∧
       canonical_id x ∉
         (referenceOutOf (mainTraverse [] "zz").1 (fun _ => [])).map Prod.fst)) :=
  ⟨by decide, by decide,
   C3_failed_fetch_recorded_and_excluded [] "zz" (fun _ => []) [] "zz" [] [] []
     (by decide) (by decide)⟩

/-- C4: in a closed environment, when a reachable database carries two
relation properties whose targets normalize to the same identifier, the
traversal issues exactly one network fetch for that target (one entry in
the fetch log) and the target appears exactly once as a key of the
`schema` output — even though the enqueue check, made against the pool
alone, can place the identifier on the frontier twice, as the concrete
frontier computation in the last conjunct shows. -/
theorem C4_same_target_fetched_once (env : Env) (root : String)
    (hcl : EnvClosed env root)
    (cdb : String) (d : NDatabase)
    (hd : List.lookup cdb env = some d)
    (hreach : Reachable env root cdb)
    (n1 n2 r1 r2 : String) (p1 p2 : NProperty)
    (hm1 : (n1, p1) ∈ d.properties) (hm2 : (n2, p2) ∈ d.properties) (hne : n1 ≠ n2)
    (hp1 : p1.payload = .relation r1) (hp2 : p2.payload = .relation r2)
    (hcc : canonical_id r1 = canonical_id r2) :
    (((mainTraverse env root).2.2.filter
        (fun x => canonical_id x == canonical_id r1)).length = 1) ∧
    (List.count (canonical_id r1)
        ((schemaOutOf (mainTraverse env root).1).map Prod.fst) = 1) ∧
    ((newFrontier exRootDb [("r1", exRootDb)]).map canonical_id =
      [canonical_id "t1", canonical_id "t1"]) := by
  have h := bfsRun_closed_post env root hcl [] [root] [] [] (travInv_init env root)
  have hr : Reachable env root (canonical_id r1) :=
    Reachable.step hreach hd (mem_relationTargets hm1 hp1)
  unfold mainTraverse
  refine ⟨h.2.2 _ hr, ?_, by decide⟩
  rw [schemaOutOf_keys]
  exact List.count_eq_one_of_mem h.1 ((h.2.1 _).mpr hr)

/-- Witness for C4 at the concrete two-relation root database. -/
theorem C4_same_target_fetched_once_witness :
    (((mainTraverse exEnv "r1").2.2.filter
        (fun x => canonical_id x == canonical_id "t-1")).length = 1) ∧
    (List.count (canonical_id "t-1")
        ((schemaOutOf (mainTraverse exEnv "r1").1).map Prod.fst) = 1) ∧
    ((newFrontier exRootDb [("r1", exRootDb)]).map canonical_id =
      [canonical_id "t1", canonical_id "t1"]) :=
  C4_same_target_fetched_once exEnv "r1" (by decide) "r1" exRootDb (by decide)
    ((show canonical_id "r1" = "r1" by decide) ▸ Reachable.root)
    "P1" "P2" "t-1" "t1" ⟨"p1", .relation "t-1"⟩ ⟨"p2", .relation "t1"⟩
    (by decide) (by decide) (by decide) (by decide) (by decide) (by decide)

/-- C5: pagination stops requesting further pages as soon as the server
reports no more pages or the accumulated rows reach the cap — even when
the server reports more pages available — and a failed page also stops it;
hence the loop answers within every response sequence that contains a stop
page or whose cumulative results reach the cap, and
`collect_reference_rows` runs the loop at the default cap 10000. -/
theorem C5_pagination_cap_and_termination :
    (∀ (max_rows : Nat) (acc results : List NRow) (nc : Option String)
        (rest : List PageResp), max_rows ≤ (acc ++ results).length →
      pageLoop max_rows acc (.ok results nc true :: rest) = some (acc ++ results, 1)) ∧
    (∀ (max_rows : Nat) (acc results : List NRow) (nc : Option String)
        (rest : List PageResp),
      pageLoop max_rows acc (.ok results nc false :: rest) = some (acc ++ results, 1)) ∧
    (∀ (max_rows : Nat) (acc : List NRow) (rest : List PageResp),
      pageLoop max_rows acc (.fail :: rest) = some (acc, 1)) ∧
    (∀ (max_rows : Nat) (rs : List PageResp) (acc : List NRow),
      (∃ p ∈ rs, p = .fail ∨ ∃ res nc, p = .ok res nc false) →
      (pageLoop max_rows acc rs).isSome = true) ∧
    (∀ (max_rows k : Nat) (rs : List PageResp) (acc : List NRow), k < rs.length →
      max_rows ≤ acc.length + (((rs.take (k+1)).map respLen).sum) →
      (pageLoop max_rows acc rs).isSome = true) ∧
    (∀ (db : NDatabase) (pages : List PageResp),
      collect_reference_rows db pages = collect_reference_rows_cap 10000 db pages) :=
  ⟨fun m a r nc rest h => pageLoop_cap m a r nc true rest h,
   fun m a r nc rest => pageLoop_no_more m a r nc rest,
   fun m a rest => pageLoop_fail m a rest,
   fun m rs acc h => pageLoop_isSome_of_stop m rs acc h,
   fun m k rs acc h1 h2 => pageLoop_isSome_of_cap m k rs acc h1 h2,
   fun _ _ => rfl⟩

/-- Witness for C5: the cap stop, the has-more stop, the failure stop, both
termination conditions, and the default cap, at concrete scripts. -/
theorem C5_pagination_cap_and_termination_witness :
    (pageLoop 2 [] [.ok [⟨[]⟩, ⟨[]⟩] none true, .ok [⟨[]⟩] none true] =
      some ([⟨[]⟩, ⟨[]⟩], 1)) ∧
    (pageLoop 5 [] [.ok [⟨[]⟩] none false, .fail] = some ([⟨[]⟩], 1)) ∧
    (pageLoop 5 [] [.fail, .fail] = some ([], 1)) ∧
    ((pageLoop 5 [] [.ok [] none true, .fail]).isSome = true) ∧
    ((pageLoop 1 [] [.ok [⟨[]⟩] none true, .ok [⟨[]⟩] none true]).isSome = true) ∧
    (collect_reference_rows exTargetDb [] = collect_reference_rows_cap 10000 exTargetDb []) := by
  refine ⟨?_, ?_, ?_, ?_, ?_, ?_⟩
  · exact C5_pagination_cap_and_termination.1 2 [] [⟨[]⟩, ⟨[]⟩] none
      [.ok [⟨[]⟩] none true] (by decide)
  · exact C5_pagination_cap_and_termination.2.1 5 [] [⟨[]⟩] none [.fail]
  · exact C5_pagination_cap_and_termination.2.2.1 5 [] [.fail]
  · exact C5_pagination_cap_and_termination.2.2.2.1 5 [.ok [] none true, .fail] []
      ⟨.fail, by decide, Or.inl rfl⟩
  · exact C5_pagination_cap_and_termination.2.2.2.2.1 1 0
      [.ok [⟨[]⟩] none true, .ok [⟨[]⟩] none true] [] (by decide) (by decide)
  · exact C5_pagination_cap_and_termination.2.2.2.2.2 exTargetDb []

/-- Example database with a `select` property declaring options A and B. -/
def exSelDb : NDatabase :=
  ⟨"s1", none, [("P", ⟨"pp", .select ["A", "B"]⟩)]⟩

/-- C7: every value list the reference output emits is sorted lexically (by
the string order on the values' textual form), and on a database whose
select-typed property declares options A and B, with a paginated query
returning no records, the reference mapping binds that property exactly to
the sorted list of its declared options. -/
theorem C7_reference_sorted (max_rows : Nat) (db : NDatabase)
    (pages : List PageResp) (ref : List (String × List String))
    (href : collect_reference_rows_cap max_rows db pages = some ref) :
    (∀ e ∈ ref, e.2.Sorted (fun a b : String => strLe a b = true)) ∧
    (collect_reference_rows exSelDb [.ok [] none false] = some [("P", ["A", "B"])]) := by
  constructor
  · intro e he
    unfold collect_reference_rows_cap at href
    cases hpl : pageLoop max_rows [] pages with
    | none => rw [hpl] at href; cases href
    | some res =>
      rw [hpl] at href
      have href' : sortRef (applyContribs (seedRef db) res.1) = ref := by
        injection href
      subst href'
      unfold sortRef at he
      rcases List.mem_map.mp he with ⟨e0, _, rfl⟩
      exact List.sorted_insertionSort (fun a b : String => strLe a b = true) e0.2
  · decide

/-- Witness for C7 at the concrete select-only database. -/
theorem C7_reference_sorted_witness :
    (∀ e ∈ [("P", ["A", "B"])], e.2.Sorted (fun a b : String => strLe a b = true)) ∧
    (collect_reference_rows exSelDb [.ok [] none false] = some [("P", ["A", "B"])]) :=
  C7_reference_sorted 10000 exSelDb [.ok [] none false] [("P", ["A", "B"])] (by decide)

/-- C8: a transport-level failure on any page stops pagination for that
database at once — everything after the first failed page is irrelevant —
and the reference result is still produced (`isSome`, no exception) from
the schema-declared options plus the rows of the pages already received. -/
theorem C8_transport_failure_truncates :
    (∀ (max_rows : Nat) (acc : List NRow) (rest : List PageResp),
      pageLoop max_rows acc (.fail :: rest) = some (acc, 1)) ∧
    (∀ (max_rows : Nat) (db : NDatabase) (pre rest : List PageResp),
      collect_reference_rows_cap max_rows db (pre ++ .fail :: rest) =
        collect_reference_rows_cap max_rows db (pre ++ [.fail])) ∧
    (∀ (max_rows : Nat) (db : NDatabase) (pages : List PageResp) (rows : List NRow) (n : Nat),
      pageLoop max_rows [] pages = some (rows, n) →
      collect_reference_rows_cap max_rows db pages =
        some (sortRef (applyContribs (seedRef db) rows))) ∧
    (∀ (max_rows : Nat) (db : NDatabase) (pre rest : List PageResp),
      (collect_reference_rows_cap max_rows db (pre ++ .fail :: rest)).isSome = true) := by
  refine ⟨pageLoop_fail, ?_, ?_, ?_⟩
  · intro max_rows db pre rest
    unfold collect_reference_rows_cap
    rw [pageLoop_fail_truncates max_rows pre [] rest]
  · intro max_rows db pages rows n h
    unfold collect_reference_rows_cap
    rw [h]
    rfl
  · intro max_rows db pre rest
    unfold collect_reference_rows_cap
    have h := pageLoop_isSome_of_stop max_rows (pre ++ .fail :: rest) []
      ⟨.fail, List.mem_append_right _ (List.mem_cons_self _ _), Or.inl rfl⟩
    rcases Option.isSome_iff_exists.mp h with ⟨v, hv⟩
    rw [hv]
    rfl

/-- Witness for C8: a failure on the second page truncates the sampling of a
concrete database and still yields a result. -/
theorem C8_transport_failure_truncates_witness :
    (pageLoop 10000 [] [.fail] = some ([], 1)) ∧
    (collect_reference_rows_cap 10000 exSelDb
        ([.ok [] none true] ++ .fail :: [.ok [] none false]) =
      collect_reference_rows_cap 10000 exSelDb ([.ok [] none true] ++ [.fail])) ∧
    (collect_reference_rows_cap 10000 exSelDb [.ok [] none false] =
      some (sortRef (applyContribs (seedRef exSelDb) []))) ∧
    ((collect_reference_rows_cap 10000 exSelDb ([] ++ .fail :: [.fail])).isSome = true) :=
  ⟨C8_transport_failure_truncates.1 10000 [] [],
   C8_transport_failure_truncates.2.1 10000 exSelDb [.ok [] none true] [.ok [] none false],
   C8_transport_failure_truncates.2.2.1 10000 exSelDb [.ok [] none false] [] 1 (by decide),
   C8_transport_failure_truncates.2.2.2 10000 exSelDb [] [.fail]⟩

/-- Example database with an empty-option status property `Q`. -/
def exEmptyOptDb : NDatabase :=
  ⟨"s2", none, [("P", ⟨"pa", .select ["A"]⟩), ("Q", ⟨"pb", .status []⟩)]⟩

/-- Example sampled row: a title cell and a status cell named `Q`. -/
def exRow : NRow := ⟨[("T", .title ["hello"]), ("Q", .other "status")]⟩

/-- C9: a `select`/`multi_select`/`status` property with an empty declared
option list, to which no sampled record contributes a value, is omitted
from its database's reference mapping entirely: no key at all rather than
an empty list. -/
theorem C9_empty_options_property_omitted (max_rows : Nat) (db : NDatabase)
    (pages : List PageResp) (name : String) (p : NProperty)
    (hnd : (db.properties.map Prod.fst).Nodup)
    (hmem : (name, p) ∈ db.properties)
    (hopts : p.payload = .select [] ∨ p.payload = .multi_select [] ∨ p.payload = .status [])
    (ref : List (String × List String)) (rows : List NRow) (n : Nat)
    (hpl : pageLoop max_rows [] pages = some (rows, n))
    (hnc : name ∉ (rows.flatMap rowContribs).map Prod.fst)
    (href : collect_reference_rows_cap max_rows db pages = some ref) :
    List.lookup name ref = none := by
  unfold collect_reference_rows_cap at href
  rw [hpl] at href
  have href' : sortRef (applyContribs (seedRef db) rows) = ref := by
    injection href
  subst href'
  rw [sortRef_lookup]
  rw [applyContribs_lookup_none rows (seedRef db) hnc
    (seedRef_lookup_none hnd hmem hopts)]
  rfl

/-- Witness for C9 at a concrete database and one sampled row. -/
theorem C9_empty_options_property_omitted_witness :
    List.lookup "Q" [("P", ["A"]), ("T", ["hello"])] = none :=
  C9_empty_options_property_omitted 10000 exEmptyOptDb [.ok [exRow] none false]
    "Q" ⟨"pb", .status []⟩ (by decide) (by decide) (by decide)
    [("P", ["A"]), ("T", ["hello"])] [exRow] 1 (by decide) (by decide) (by decide)

/-- A pooled database whose title list is present but empty. -/
def emptyTitleDb : NDatabase := ⟨"t9", some [], []⟩

/-- A database with one relation property pointing at `emptyTitleDb`. -/
def relToEmptyDb : NDatabase := ⟨"d6", none, [("L", ⟨"l1", .relation "t9"⟩)]⟩

/-- A pool containing the empty-title target. -/
def emptyTitlePool : Pool := [("t9", emptyTitleDb)]

/-- Counterexample to C6 as stated: the pool does contain the relation
target under its normalized id, yet resolution raises — the unguarded
`[0]` on the target's present-but-empty title list is an `IndexError`,
modelled as `none` — instead of attaching the target's title without
error. -/
theorem C6_relation_resolution_cex :
    List.lookup (canonical_id "t9") emptyTitlePool = some emptyTitleDb ∧
    schemaEntry relToEmptyDb emptyTitlePool ⟨"l1", .relation "t9"⟩ = none ∧
    extract_schema relToEmptyDb emptyTitlePool = none := by
  decide

/-- C6 (amended): for a relation-typed property, when the pool lacks the
target under its normalized identifier the entry's
`related_database_title` is the sentinel marker `"?"`; when the pool
contains it and the unguarded first-fragment read succeeds (title key
absent, or title list non-empty), the entry's `related_database_title` is
that read's result — the first fragment's `plain_text`, defaulting to
`"?"` — and in both of those cases resolution completes without
raising. -/
theorem C6_relation_resolution_amended (db : NDatabase) (pool : Pool) (p : NProperty)
    (rid : String) (hp : p.payload = .relation rid) :
    (List.lookup (canonical_id rid) pool = none →
      schemaEntry db pool p =
        some ⟨"relation", some rid, some "?", none, none, none, none⟩) ∧
    (∀ tdb t, List.lookup (canonical_id rid) pool = some tdb →
      firstFragmentTitle tdb = some t →
      schemaEntry db pool p =
        some ⟨"relation", some rid, some t, none, none, none, none⟩) :=
  ⟨fun h => schemaEntry_relation_miss hp h,
   fun _ _ h ht => schemaEntry_relation_hit hp h ht⟩

/-- Witness for amended C6: the unresolved-marker branch and the pooled
branch at concrete inputs. -/
theorem C6_relation_resolution_amended_witness :
    (schemaEntry relToEmptyDb [] ⟨"l1", .relation "t9"⟩ =
      some ⟨"relation", some "t9", some "?", none, none, none, none⟩) ∧
    (schemaEntry exRootDb [("t1", exTargetDb)] ⟨"p1", .relation "t-1"⟩ =
      some ⟨"relation", some "t-1", some "Tgt", none, none, none, none⟩) :=
  ⟨(C6_relation_resolution_amended relToEmptyDb [] ⟨"l1", .relation "t9"⟩ "t9" rfl).1
     (by decide),
   (C6_relation_resolution_amended exRootDb [("t1", exTargetDb)]
     ⟨"p1", .relation "t-1"⟩ "t-1" rfl).2 exTargetDb "Tgt" (by decide) (by decide)⟩

/-- A database with a rollup property whose `relation_property_id` resolves
to no property id. -/
def rollupNoHopDb : NDatabase :=
  ⟨"d2", some [⟨some "D"⟩], [("R", ⟨"rr", .rollup (some "zz") (some "yy")⟩)]⟩

/-- A database with a relation property and a rollup through it. -/
def rollupDb : NDatabase :=
  ⟨"d3", some [⟨some "D3"⟩],
   [("Rel", ⟨"a1", .relation "t1"⟩),
    ("Roll", ⟨"b1", .rollup (some "a1") (some "q-1")⟩)]⟩

/-- Counterexample to C2 as stated: when the rollup's relation hop fails (no
property of the database has id `zz`), the normalized entry does not carry
the marker `"?"` in its target fields — `rollup_property_name` and
`related_database_title` are absent keys (`none`), not `"?"`; only
`relation_property_name` carries the marker. -/
theorem C2_rollup_unresolved_marker_cex :
    ∃ e, schemaEntry rollupNoHopDb [] ⟨"rr", .rollup (some "zz") (some "yy")⟩ = some e ∧
      e.relation_property_name = some "?" ∧
      e.rollup_property_name = none ∧
      e.related_database_title = none ∧
      e.rollup_property_name ≠ some "?" ∧
      e.related_database_title ≠ some "?" :=
  ⟨⟨"rollup", none, none, some (some "zz"), some "?", some (some "yy"), none⟩, by decide⟩

/-- C2 (amended): for a rollup property — when the relation hop resolves to
a relation-typed property whose target database is pooled with a readable
non-empty title and the `rollup_property_id` resolves in the target's
property-id-to-name index, the entry carries the resolved relation
property name, the resolved target property name and the target's first
title fragment as title; when the relation hop fails to resolve (and no
property is literally named `"?"`), the entry carries `"?"` as
`relation_property_name` and omits the target fields; when the target
database is not pooled, the entry keeps the resolved
`relation_property_name` and omits the target fields.  In each case the
property's normalization completes without raising. -/
theorem C2_rollup_resolution_amended (db : NDatabase) (pool : Pool) (p : NProperty)
    (a b : Option String) (hp : p.payload = .rollup a b) :
    (∀ parent tid tdb fr frs rname,
      List.lookup (relationPropName db a) db.properties = some parent →
      parent.payload = .relation tid →
      List.lookup (canonical_id tid) pool = some tdb →
      tdb.title = some (fr :: frs) →
      pyDictGet (property_id_map tdb) (canonical_id (b.getD "")) = some rname →
      schemaEntry db pool p = some ⟨"rollup", some tid, some (fr.plain_text.getD "?"),
        some a, some (relationPropName db a), some b, some rname⟩) ∧
    (pyDictGet (property_id_map db) (canonical_id (a.getD "")) = none →
      List.lookup "?" db.properties = none →
      schemaEntry db pool p =
        some ⟨"rollup", none, none, some a, some "?", some b, none⟩) ∧
    (∀ parent tid,
      List.lookup (relationPropName db a) db.properties = some parent →
      parent.payload = .relation tid →
      List.lookup (canonical_id tid) pool = none →
      schemaEntry db pool p = some ⟨"rollup", none, none, some a,
        some (relationPropName db a), some b, none⟩) := by
  refine ⟨?_, ?_, ?_⟩
  · intro parent tid tdb fr frs rname hpar hrel hhit htitle hrn
    have ht : firstFragmentTitle tdb = some (fr.plain_text.getD "?") := by
      unfold firstFragmentTitle
      rw [htitle]
    have h := schemaEntry_rollup_hit hp hpar hrel hhit ht
    rw [h]
    unfold rollupPropName
    rw [hrn]
    rfl
  · intro hnone hq
    have hname : relationPropName db a = "?" := by
      unfold relationPropName
      rw [hnone]
      rfl
    have hnp : List.lookup (relationPropName db a) db.properties = none := by
      rw [hname]
      exact hq
    rw [schemaEntry_rollup_noparent hp hnp, hname]
  · intro parent tid hpar hrel hmiss
    exact schemaEntry_rollup_unpooled hp hpar hrel hmiss

/-- Witness for amended C2: the fully-resolved branch, the failed relation
hop, and the unpooled target, at concrete inputs. -/
theorem C2_rollup_resolution_amended_witness :
    (schemaEntry rollupDb [("t1", exTargetDb)] ⟨"b1", .rollup (some "a1") (some "q-1")⟩ =
      some ⟨"rollup", some "t1", some "Tgt", some (some "a1"), some "Rel",
        some (some "q-1"), some "Name"⟩) ∧
    (schemaEntry rollupNoHopDb [] ⟨"rr", .rollup (some "zz") (some "yy")⟩ =
      some ⟨"rollup", none, none, some (some "zz"), some "?", some (some "yy"), none⟩) ∧
    (schemaEntry rollupDb [] ⟨"b1", .rollup (some "a1") (some "q-1")⟩ =
      some ⟨"rollup", none, none, some (some "a1"), some "Rel",
        some (some "q-1"), none⟩) :=
  ⟨(C2_rollup_resolution_amended rollupDb [("t1", exTargetDb)]
      ⟨"b1", .rollup (some "a1") (some "q-1")⟩ (some "a1") (some "q-1") rfl).1
      ⟨"a1", .relation "t1"⟩ "t1" exTargetDb ⟨some "Tgt"⟩ [] "Name"
      (by decide) (by decide) (by decide) (by decide) (by decide),
   (C2_rollup_resolution_amended rollupNoHopDb []
      ⟨"rr", .rollup (some "zz") (some "yy")⟩ (some "zz") (some "yy") rfl).2.1
      (by decide) (by decide),
   (C2_rollup_resolution_amended rollupDb []
      ⟨"b1", .rollup (some "a1") (some "q-1")⟩ (some "a1") (some "q-1") rfl).2.2
      ⟨"a1", .relation "t1"⟩ "t1" (by decide) (by decide) (by decide)⟩

/-- C10: relation resolution reads the first element of a pooled target's
title list unguarded, so it can raise — the first conjunct exhibits a
concrete raising input — but under the precondition that every pooled
database has a non-empty title list (and every rollup's resolved parent is
relation-typed), `extract_schema` completes without raising; the
`related_database_title` it attaches for a relation property is only the
first title fragment's `plain_text` (default `"?"`), whereas the
database's own title in the schema output concatenates all fragments
(defaulting to `"(Untitled)"`). -/
theorem C10_first_fragment_vs_joined_title (db : NDatabase) (pool : Pool)
    (hnd : (db.properties.map Prod.fst).Nodup)
    (htitle : ∀ e ∈ pool, ∃ fr frs, e.2.title = some (fr :: frs))
    (hroll : ∀ np ∈ db.properties, ∀ a b, np.2.payload = .rollup a b →
      ∀ parent, List.lookup (relationPropName db a) db.properties = some parent →
      ∃ tid, parent.payload = .relation tid) :
    (extract_schema relToEmptyDb emptyTitlePool = none) ∧
    (∃ out, extract_schema db pool = some out ∧
      out.title = (if joinedTitle db = "" then "(Untitled)" else joinedTitle db) ∧
      ∀ n p rid tdb fr frs, (n, p) ∈ db.properties → p.payload = .relation rid →
        List.lookup (canonical_id rid) pool = some tdb → tdb.title = some (fr :: frs) →
        List.lookup n out.properties =
          some ⟨"relation", some rid, some (fr.plain_text.getD "?"),
            none, none, none, none⟩) := by
  refine ⟨by decide, ?_⟩
  have hsome : ∀ np ∈ db.properties, (schemaEntry db pool np.2).isSome = true := by
    intro np hnp
    cases hpl : np.2.payload with
    | relation rid =>
      cases hhit : List.lookup (canonical_id rid) pool with
      | none => rw [schemaEntry_relation_miss hpl hhit]; rfl
      | some tdb =>
        rcases htitle _ (mem_of_lookup_eq_some hhit) with ⟨fr, frs, htl⟩
        have ht : firstFragmentTitle tdb = some (fr.plain_text.getD "?") := by
          unfold firstFragmentTitle
          rw [htl]
        rw [schemaEntry_relation_hit hpl hhit ht]
        rfl
    | rollup a b =>
      cases hpar : List.lookup (relationPropName db a) db.properties with
      | none => rw [schemaEntry_rollup_noparent hpl hpar]; rfl
      | some parent =>
        rcases hroll np hnp a b hpl parent hpar with ⟨tid, hrel⟩
        cases hhit : List.lookup (canonical_id tid) pool with
        | none => rw [schemaEntry_rollup_unpooled hpl hpar hrel hhit]; rfl
        | some tdb =>
          rcases htitle _ (mem_of_lookup_eq_some hhit) with ⟨fr, frs, htl⟩
          have ht : firstFragmentTitle tdb = some (fr.plain_text.getD "?") := by
            unfold firstFragmentTitle
            rw [htl]
          rw [schemaEntry_rollup_hit hpl hpar hrel hhit ht]
          rfl
    | select opts =>
      rw [schemaEntry_other ⟨(by intro r h; rw [hpl] at h; cases h),
        (by intro x y h; rw [hpl] at h; cases h)⟩]
      rfl
    | multi_select opts =>
      rw [schemaEntry_other ⟨(by intro r h; rw [hpl] at h; cases h),
        (by intro x y h; rw [hpl] at h; cases h)⟩]
      rfl
    | status opts =>
      rw [schemaEntry_other ⟨(by intro r h; rw [hpl] at h; cases h),
        (by intro x y h; rw [hpl] at h; cases h)⟩]
      rfl
    | other t =>
      rw [schemaEntry_other ⟨(by intro r h; rw [hpl] at h; cases h),
        (by intro x y h; rw [hpl] at h; cases h)⟩]
      rfl
  rcases Option.isSome_iff_exists.mp (schemaEntries_isSome db.properties hsome) with
    ⟨entries, hentries⟩
  refine ⟨⟨db.id,
    if joinedTitle db = "" then "(Untitled)" else joinedTitle db, entries⟩, ?_, rfl, ?_⟩
  · unfold extract_schema
    rw [hentries]
    rfl
  · intro n p rid tdb fr frs hmem hp hhit htl
    have ht : firstFragmentTitle tdb = some (fr.plain_text.getD "?") := by
      unfold firstFragmentTitle
      rw [htl]
    have h := schemaEntries_lookup db.properties entries hnd hentries n p hmem
    simp only [h]
    exact schemaEntry_relation_hit hp hhit ht

/-- Witness for C10 at the concrete two-relation database and a pooled
target with one title fragment. -/
theorem C10_first_fragment_vs_joined_title_witness :
    (extract_schema relToEmptyDb emptyTitlePool = none) ∧
    (∃ out, extract_schema exRootDb [("t1", exTargetDb)] = some out ∧
      out.title =
        (if joinedTitle exRootDb = "" then "(Untitled)" else joinedTitle exRootDb) ∧
      ∀ n p rid tdb fr frs, (n, p) ∈ exRootDb.properties → p.payload = .relation rid →
        List.lookup (canonical_id rid) [("t1", exTargetDb)] = some tdb →
        tdb.title = some (fr :: frs) →
        List.lookup n out.properties =
          some ⟨"relation", some rid, some (fr.plain_text.getD "?"),
            none, none, none, none⟩) :=
  C10_first_fragment_vs_joined_title exRootDb [("t1", exTargetDb)] (by decide)
    (by
      intro e he
      rcases List.mem_singleton.mp he with rfl
      exact ⟨⟨some "Tgt"⟩, [], rfl⟩)
    (by
      intro np hnp a b hab parent hpar
      simp [exRootDb] at hnp
      rcases hnp with rfl | rfl <;> simp at hab)

end Mail2do
